import Mathlib

/-!
Verification of the wordopdf-frontend batch-intake and submission logic.

The definitions below are a shallow embedding of `src/App.tsx` (the current
variant of the single-page app): the `addFiles` / `removeFile` / `clearAll`
intake operations, the `handleSubmit` transfer workflow (with the server
response modelled as an explicit `FetchOutcome` parameter), the
`Content-Disposition` filename extraction (the regex `filename="(.+?)"`
is implemented directly over character lists), and the UI event gating
expressed by the `disabled` attributes of the rendered controls.
-/

namespace Wordopdf

/-- One user-selected file: `name`, `size` (identity is the pair) and the
declared media type (`file.type` in the source). The binary content plays
no role in the control logic and is not modelled. -/
structure Candidate where
  name : String
  size : Nat
  mime : String
  deriving DecidableEq, Repr

/-- The `type` field of the UI status (`'error' | 'success' | 'idle'`). -/
inductive StatusType where
  | error
  | success
  | idle
  deriving DecidableEq, Repr

/-- The `StatusState` record of the source. -/
structure Status where
  message : String
  type : StatusType
  deriving DecidableEq, Repr

/-- The React state of the `App` component: `files`, `isLoading`,
`status`, `isDragging`. -/
structure AppState where
  files : List Candidate
  isLoading : Bool
  status : Status
  isDragging : Bool
  deriving DecidableEq, Repr

/-- `const MAX_FILES = 30`. -/
def MAX_FILES : Nat := 30

/-- The accepted document MIME type. -/
def docxMime : String :=
  "application/vnd.openxmlformats-officedocument.wordprocessingml.document"

/-- The idle status `{ message: '', type: 'idle' }`. -/
def statusIdle : Status := ⟨"", .idle⟩

/-- Message set when `addFiles` is called with the batch already full. -/
def alreadyFullMsg : String :=
  "Você já atingiu o limite de " ++ toString MAX_FILES ++ " arquivos."

/-- Message set when the limit was hit partway and `n` files were added. -/
def limitSomeAddedMsg (n : Nat) : String :=
  "Limite de " ++ toString MAX_FILES ++ " arquivos atingido. " ++ toString n
    ++ " arquivo(s) foram adicionados."

/-- Message set when the limit was hit and no file was added. -/
def limitNoneAddedMsg : String :=
  "Limite de " ++ toString MAX_FILES
    ++ " arquivos atingido. Nenhum arquivo novo foi adicionado."

/-- Message set when submitting with an empty batch. -/
def emptySubmitMsg : String :=
  "Opa! Você precisa selecionar um arquivo .docx primeiro."

/-- Generic network-failure message. -/
def networkErrMsg : String :=
  "Opa! Não consegui conectar ao servidor. Tente de novo daqui a pouco."

/-- Generic server-error message. -/
def serverErrMsg : String :=
  "Ih, deu um probleminha no servidor ao tentar converter. Tente novamente!"

/-- Generic unexpected-error message. -/
def unexpectedErrMsg : String :=
  "Ocorreu um erro inesperado. Por favor, tente de novo."

/-- Success message set just before `clearAll()` on the success path. -/
def successMsg : String :=
  "Prontinho! ✨ Conversão concluída, seu download vai começar."

/-- Default archive name when no filename is found in the header. -/
def defaultZipName : String := "converted-files.zip"

/-- Type gate: `file.name.endsWith('.docx') || file.type === docxMime`. -/
def isDocx (f : Candidate) : Bool :=
  ".docx".data.isSuffixOf f.name.data || f.mime == docxMime

/-- Duplicate gate against the current batch:
`files.some(f => f.name === file.name && f.size === file.size)`. -/
def isDuplicate (files : List Candidate) (f : Candidate) : Bool :=
  files.any fun g => g.name == f.name && g.size == f.size

/-- The `Array.from(newFiles).forEach(...)` loop of `addFiles`: `files` is
the batch at call time, `filesToAdd` the staged accumulator and the Bool
the `limitReached` flag. -/
def addFilesLoop (files : List Candidate) :
    List Candidate → List Candidate → Bool → List Candidate × Bool
  | [], filesToAdd, limitReached => (filesToAdd, limitReached)
  | f :: rest, filesToAdd, limitReached =>
    if files.length + filesToAdd.length ≥ MAX_FILES then
      addFilesLoop files rest filesToAdd true
    else if isDocx f && !isDuplicate files f then
      addFilesLoop files rest (filesToAdd ++ [f]) limitReached
    else
      addFilesLoop files rest filesToAdd limitReached

/-- The `addFiles` handler of `src/App.tsx`: resets the status, rejects
outright when the batch is already full, stages eligible non-duplicate
files up to capacity, sets the limit messages, and appends the staged
files. -/
def addFiles (st : AppState) (newFiles : List Candidate) : AppState :=
  let st0 := { st with status := statusIdle }
  if st0.files.length ≥ MAX_FILES then
    { st0 with status := ⟨alreadyFullMsg, .error⟩ }
  else
    let r := addFilesLoop st0.files newFiles [] false
    let st1 :=
      if r.2 && decide (0 < r.1.length) then
        { st0 with status := ⟨limitSomeAddedMsg r.1.length, .error⟩ }
      else if r.2 then
        { st0 with status := ⟨limitNoneAddedMsg, .error⟩ }
      else st0
    { st1 with files := st1.files ++ r.1 }

/-- The `removeFile` handler: `prevFiles.filter((_, i) => i !== index)`.
The index is an arbitrary (possibly negative) integer. -/
def removeFile (files : List Candidate) (index : Int) : List Candidate :=
  (files.enum.filter fun p => !((p.1 : Int) == index)).map Prod.snd

/-- The `clearAll` handler: `setFiles([]); setStatus(idle)`. -/
def clearAll (st : AppState) : AppState :=
  { st with files := [], status := statusIdle }

/-- The initial component state. -/
def initState : AppState := ⟨[], false, statusIdle, false⟩

/-- A sequence of `addFiles` calls starting from the initial state. -/
def runAdds (offers : List (List Candidate)) : AppState :=
  offers.foldl addFiles initState

/-- Characters matched by `.` in a JavaScript regex (anything except the
line terminators). -/
def dotMatch (c : Char) : Bool :=
  !(c == '\n') && !(c == '\r') && !(c == '\u2028') && !(c == '\u2029')

/-- Scan for the closing quote of the lazy group `(.+?)`: `acc` holds the
(reversed, nonempty) capture so far; stops at the first `"` and fails on a
non-`.`-matchable character or the end of input. -/
def seekClose (acc : List Char) : List Char → Option (List Char)
  | [] => none
  | c :: rest =>
    if c == '"' then some acc.reverse
    else if dotMatch c then seekClose (c :: acc) rest
    else none

/-- Attempt to match `(.+?)"` at the current position: the capture is
nonempty, so the first character is consumed unconditionally (when
`.`-matchable) before the closing quote is sought. -/
def captureAfter : List Char → Option (List Char)
  | [] => none
  | c :: rest => if dotMatch c then seekClose [c] rest else none

/-- The literal prefix of the pattern `filename="(.+?)"`. -/
def filenamePat : List Char := "filename=\"".data

/-- Leftmost match of the regex `filename="(.+?)"`: try every start
position from the left; where the literal matches, try to close the lazy
group, and on failure resume at the next start position. Returns the
captured group. -/
def matchFilename : List Char → Option (List Char)
  | [] => none
  | c :: rest =>
    if filenamePat.isPrefixOf (c :: rest) then
      match captureAfter ((c :: rest).drop filenamePat.length) with
      | some v => some v
      | none => matchFilename rest
    else matchFilename rest

/-- Filename resolution of the success path: start from the default name;
if the `content-disposition` header is present (non-null, non-empty) and
the pattern matches, use the captured group. -/
def resolveFilename (cd : Option String) : String :=
  match cd with
  | none => defaultZipName
  | some s =>
    if s.data.isEmpty then defaultZipName
    else
      match matchFilename s.data with
      | some v => String.mk v
      | none => defaultZipName

/-- The environment's behaviour of one `fetch`: either the promise rejects
with an error message (transport failure), or a response arrives with an
`ok` flag, a body (read as text on the error path) and an optional
`content-disposition` header. -/
inductive FetchOutcome where
  | transportError (msg : String)
  | response (ok : Bool) (body : String) (contentDisposition : Option String)
  deriving DecidableEq, Repr

/-- Observable result of one `handleSubmit` run: the final component
state, the multipart snapshot sent (`none` when no request was issued)
and the filename of the triggered save (`none` when no save happened). -/
structure SubmitRun where
  finalState : AppState
  requestSent : Option (List Candidate)
  savedAs : Option String
  deriving DecidableEq, Repr

/-- Scan every tail of `s` for `pat` as a prefix. -/
def containsAux (pat : List Char) : List Char → Bool
  | [] => pat.isEmpty
  | c :: rest => pat.isPrefixOf (c :: rest) || containsAux pat rest

/-- JavaScript `String.prototype.includes`. -/
def strIncludes (s pat : String) : Bool :=
  containsAux pat.data s.data

/-- The `catch` block of `handleSubmit`: classify the caught error message
and set the corresponding generic status. -/
def catchBranch (st : AppState) (errMsg : String) : AppState :=
  if strIncludes errMsg "Failed to fetch" then
    { st with status := ⟨networkErrMsg, .error⟩ }
  else if errMsg == "server_error" then
    { st with status := ⟨serverErrMsg, .error⟩ }
  else
    { st with status := ⟨unexpectedErrMsg, .error⟩ }

/-- The whole `handleSubmit` handler: empty-batch short circuit, then
`isLoading := true`, status reset, one POST of the batch snapshot, and
either the blob/save/success/clearAll sequence or the `catch`
classification; `finally` resets `isLoading`. -/
def handleSubmit (st : AppState) (outcome : FetchOutcome) : SubmitRun :=
  if st.files.length = 0 then
    { finalState := { st with status := ⟨emptySubmitMsg, .error⟩ },
      requestSent := none, savedAs := none }
  else
    let st1 := { st with isLoading := true, status := statusIdle }
    match outcome with
    | .transportError msg =>
      { finalState := { catchBranch st1 msg with isLoading := false },
        requestSent := some st.files, savedAs := none }
    | .response ok _body cd =>
      if !ok then
        { finalState := { catchBranch st1 "server_error" with isLoading := false },
          requestSent := some st.files, savedAs := none }
      else
        let filename := resolveFilename cd
        let st2 := clearAll { st1 with status := ⟨successMsg, .success⟩ }
        { finalState := { st2 with isLoading := false },
          requestSent := some st.files, savedAs := some filename }

/-- Failure outcomes of a transfer: the promise rejected, or a non-2xx
response arrived. -/
def isFailureOutcome : FetchOutcome → Bool
  | .transportError _ => true
  | .response ok _ _ => !ok

/-- UI events that can reach the component's handlers, split at the
`await` boundary of `handleSubmit`: `submitStart` is the synchronous
prefix up to the `fetch`, `transferResolve` its continuation. -/
inductive UIEvent where
  | pickFiles (fs : List Candidate)
  | dropFiles (fs : List Candidate)
  | removeClick (i : Int)
  | clearClick
  | submitStart
  | transferResolve (outcome : FetchOutcome)

/-- Component state plus the in-flight transfer (the multipart snapshot
of a pending request, `none` when no transfer is pending). -/
structure UIState where
  app : AppState
  pendingRequest : Option (List Candidate)
  deriving DecidableEq, Repr

/-- The initial UI state. -/
def initUI : UIState := ⟨initState, none⟩

/-- Whether an event can fire, per the `disabled` attributes of the
rendered controls: the file input, the per-item remove buttons, the clear
button and the convert button are all `disabled={isLoading}` (the convert
button additionally requires a non-empty list), while the drop zone `div`
carries no gate; a transfer can resolve only while one is pending. -/
def enabled (st : UIState) : UIEvent → Bool
  | .pickFiles _ => !st.app.isLoading
  | .dropFiles _ => true
  | .removeClick _ => !st.app.isLoading
  | .clearClick => !st.app.isLoading
  | .submitStart => !st.app.isLoading && decide (0 < st.app.files.length)
  | .transferResolve _ => st.pendingRequest.isSome

/-- The continuation of `handleSubmit` after the `fetch` resolves,
operating on the then-current component state. -/
def resolveTransfer (st : AppState) (o : FetchOutcome) : AppState :=
  let st1 :=
    match o with
    | .transportError msg => catchBranch st msg
    | .response ok _body _cd =>
      if !ok then catchBranch st "server_error"
      else clearAll { st with status := ⟨successMsg, .success⟩ }
  { st1 with isLoading := false }

/-- One step of the event system. -/
def step (st : UIState) : UIEvent → UIState
  | .pickFiles fs => { st with app := addFiles st.app fs }
  | .dropFiles fs =>
    { st with app := addFiles { st.app with isDragging := false } fs }
  | .removeClick i =>
    { st with app := { st.app with files := removeFile st.app.files i } }
  | .clearClick => { st with app := clearAll st.app }
  | .submitStart =>
    if st.app.files.length = 0 then
      { st with app := { st.app with status := ⟨emptySubmitMsg, .error⟩ } }
    else
      { app := { st.app with isLoading := true, status := statusIdle },
        pendingRequest := some st.app.files }
  | .transferResolve o =>
    match st.pendingRequest with
    | none => st
    | some _ => { app := resolveTransfer st.app o, pendingRequest := none }

/-- States reachable from `initUI` by enabled events. -/
inductive Reachable : UIState → Prop where
  | init : Reachable initUI
  | step {st : UIState} {e : UIEvent} :
      Reachable st → enabled st e = true → Reachable (step st e)

/-- Two candidates differ in their `(name, size)` identity. -/
def KeyDifferent (a b : Candidate) : Prop :=
  ¬(a.name = b.name ∧ a.size = b.size)

instance : DecidableRel KeyDifferent := fun a b => by
  unfold KeyDifferent; infer_instance

/-- A concrete extension-valid candidate. -/
def fileA : Candidate := ⟨"a.docx", 5, ""⟩

/-- A second concrete extension-valid candidate with a distinct key. -/
def fileB : Candidate := ⟨"b.docx", 6, ""⟩

/-- A batch of 29 key-distinct extension-valid candidates. -/
def batch29 : List Candidate := (List.range 29).map fun i => ⟨"a.docx", i, ""⟩

/-- A component state holding `batch29`. -/
def state29 : AppState := ⟨batch29, false, statusIdle, false⟩

/-- Two key-distinct extension-valid candidates to offer to `state29`. -/
def offer2 : List Candidate := [⟨"x.docx", 100, ""⟩, ⟨"y.docx", 101, ""⟩]

/-- A one-file batch for the end-to-end success scenario. -/
def demoBatch : List Candidate := [⟨"a.docx", 10, ""⟩]

/-- The `Content-Disposition` header of the success scenario. -/
def demoHeader : String := "attachment; filename=\"out.zip\""

/-- The end-to-end success run: non-empty batch, 2xx response with a
binary body and the `out.zip` disposition header. -/
def scenarioA : SubmitRun :=
  handleSubmit ⟨demoBatch, false, statusIdle, false⟩
    (.response true "PK" (some demoHeader))

/-- A reachable UI state with a transfer in flight: pick one file, then
press convert. -/
def uiLoading : UIState := step (step initUI (.pickFiles [fileA])) .submitStart

/-! ## Helper lemmas -/

theorem catchBranch_files (st : AppState) (m : String) :
    (catchBranch st m).files = st.files := by
  unfold catchBranch
  split
  · rfl
  split
  · rfl
  · rfl

theorem catchBranch_type (st : AppState) (m : String) :
    (catchBranch st m).status.type = .error := by
  unfold catchBranch
  split
  · rfl
  split
  · rfl
  · rfl

theorem addFiles_isLoading (st : AppState) (fs : List Candidate) :
    (addFiles st fs).isLoading = st.isLoading := by
  unfold addFiles
  dsimp only
  split
  · rfl
  split
  · rfl
  split
  · rfl
  · rfl

theorem addFiles_files_eq (st : AppState) (fs : List Candidate) :
    (addFiles st fs).files =
      if st.files.length ≥ MAX_FILES then st.files
      else st.files ++ (addFilesLoop st.files fs [] false).1 := by
  unfold addFiles
  dsimp only
  by_cases h1 : st.files.length ≥ MAX_FILES
  · simp only [if_pos h1]
  · simp only [if_neg h1]
    split
    · rfl
    split
    · rfl
    · rfl

theorem addFiles_status_eq (st : AppState) (fs : List Candidate) :
    (addFiles st fs).status =
      if st.files.length ≥ MAX_FILES then ⟨alreadyFullMsg, .error⟩
      else if (addFilesLoop st.files fs [] false).2
          && decide (0 < (addFilesLoop st.files fs [] false).1.length) then
        ⟨limitSomeAddedMsg (addFilesLoop st.files fs [] false).1.length, .error⟩
      else if (addFilesLoop st.files fs [] false).2 then
        ⟨limitNoneAddedMsg, .error⟩
      else statusIdle := by
  unfold addFiles
  dsimp only
  by_cases h1 : st.files.length ≥ MAX_FILES
  · simp only [if_pos h1]
  · simp only [if_neg h1]
    by_cases h2 : (addFilesLoop st.files fs [] false).2
        && decide (0 < (addFilesLoop st.files fs [] false).1.length)
    · simp only [if_pos h2]
    · simp only [if_neg h2]
      by_cases h3 : (addFilesLoop st.files fs [] false).2
      · simp only [if_pos h3]
      · simp only [if_neg h3]

theorem addFilesLoop_length (files : List Candidate) :
    ∀ (fs acc : List Candidate) (b : Bool),
      files.length + acc.length ≤ MAX_FILES →
      files.length + (addFilesLoop files fs acc b).1.length ≤ MAX_FILES := by
  intro fs
  induction fs with
  | nil =>
    intro acc b h
    exact h
  | cons f rest ih =>
    intro acc b h
    unfold addFilesLoop
    split
    · exact ih acc true h
    next hlt =>
      split
      · refine ih (acc ++ [f]) b ?_
        rw [List.length_append, List.length_cons, List.length_nil]
        omega
      · exact ih acc b h

theorem addFilesLoop_shape (files : List Candidate) :
    ∀ (fs acc : List Candidate) (b : Bool),
      ∃ t, (addFilesLoop files fs acc b).1 = acc ++ t ∧ t.Sublist fs ∧
        ∀ x ∈ t, isDuplicate files x = false := by
  intro fs
  induction fs with
  | nil =>
    intro acc b
    exact ⟨[], by simp [addFilesLoop], List.nil_sublist _, by simp⟩
  | cons f rest ih =>
    intro acc b
    unfold addFilesLoop
    split
    · obtain ⟨t, h1, h2, h3⟩ := ih acc true
      exact ⟨t, h1, h2.cons f, h3⟩
    · split
      next helig =>
        obtain ⟨t, h1, h2, h3⟩ := ih (acc ++ [f]) b
        refine ⟨f :: t, by rw [h1]; simp, h2.cons₂ f, ?_⟩
        intro x hx
        rcases List.mem_cons.mp hx with hx | hx
        · subst hx
          have := (Bool.and_eq_true _ _).mp helig
          simpa using this.2
        · exact h3 x hx
      · obtain ⟨t, h1, h2, h3⟩ := ih acc b
        exact ⟨t, h1, h2.cons f, h3⟩

theorem isDuplicate_eq_false {files : List Candidate} {f : Candidate}
    (h : isDuplicate files f = false) : ∀ g ∈ files, KeyDifferent g f := by
  intro g hg
  unfold isDuplicate at h
  rw [List.any_eq_false] at h
  have hgf := h g hg
  unfold KeyDifferent
  intro hk
  exact hgf (by simp [hk.1, hk.2])

theorem addFiles_preserves_inv (st : AppState) (fs : List Candidate)
    (hfs : fs.Pairwise KeyDifferent)
    (hlen : st.files.length ≤ MAX_FILES)
    (hnd : st.files.Pairwise KeyDifferent) :
    (addFiles st fs).files.length ≤ MAX_FILES ∧
    (addFiles st fs).files.Pairwise KeyDifferent := by
  rw [addFiles_files_eq]
  split
  · exact ⟨hlen, hnd⟩
  next hfull =>
    obtain ⟨t, h1, h2, h3⟩ := addFilesLoop_shape st.files fs [] false
    rw [h1, List.nil_append]
    constructor
    · have := addFilesLoop_length st.files fs [] false (by simpa using hlen)
      rw [h1, List.nil_append] at this
      rw [List.length_append]
      exact this
    · rw [List.pairwise_append]
      refine ⟨hnd, hfs.sublist h2, ?_⟩
      intro a ha b hb
      exact isDuplicate_eq_false (h3 b hb) a ha

theorem runAdds_inv_aux :
    ∀ (offers : List (List Candidate)) (st : AppState),
      (∀ fs ∈ offers, fs.Pairwise KeyDifferent) →
      st.files.length ≤ MAX_FILES → st.files.Pairwise KeyDifferent →
      (offers.foldl addFiles st).files.length ≤ MAX_FILES ∧
      (offers.foldl addFiles st).files.Pairwise KeyDifferent := by
  intro offers
  induction offers with
  | nil =>
    intro st _ h1 h2
    exact ⟨h1, h2⟩
  | cons fs rest ih =>
    intro st h h1 h2
    have hstep := addFiles_preserves_inv st fs (h fs (by simp)) h1 h2
    exact ih (addFiles st fs) (fun g hg => h g (by simp [hg])) hstep.1 hstep.2

theorem addFilesLoop_all_eligible (files : List Candidate) :
    ∀ (fs acc : List Candidate) (b : Bool),
      (∀ f ∈ fs, isDocx f = true ∧ isDuplicate files f = false) →
      files.length + acc.length ≤ MAX_FILES →
      addFilesLoop files fs acc b =
        (acc ++ fs.take (MAX_FILES - files.length - acc.length),
         b || decide (MAX_FILES - files.length - acc.length < fs.length)) := by
  intro fs
  induction fs with
  | nil =>
    intro acc b _ _
    simp [addFilesLoop]
  | cons f rest ih =>
    intro acc b h hle
    unfold addFilesLoop
    split
    next hge =>
      have hroom : MAX_FILES - files.length - acc.length = 0 := by omega
      rw [ih acc true (fun g hg => h g (List.mem_cons_of_mem _ hg)) hle]
      rw [hroom]
      simp
    next hlt =>
      have hroom : 0 < MAX_FILES - files.length - acc.length := by omega
      split
      next helig =>
        rw [ih (acc ++ [f]) b
          (fun g hg => h g (List.mem_cons_of_mem _ hg))
          (by rw [List.length_append, List.length_cons, List.length_nil]; omega)]
        obtain ⟨k, hk⟩ : ∃ k, MAX_FILES - files.length - acc.length = k + 1 :=
          ⟨MAX_FILES - files.length - acc.length - 1, by omega⟩
        have hk' : MAX_FILES - files.length - (acc ++ [f]).length = k := by
          rw [List.length_append, List.length_cons, List.length_nil]
          omega
        rw [hk, hk', List.take_succ_cons, List.length_cons]
        refine congrArg₂ Prod.mk (by simp) ?_
        exact congrArg (b || ·) (decide_eq_decide.mpr (by omega))
      next helig =>
        exact absurd (by simp [(h f (List.mem_cons_self f rest)).1,
          (h f (List.mem_cons_self f rest)).2]) helig

theorem limitSomeAddedMsg_ne :
    ∀ n < 31, 0 < n →
      limitSomeAddedMsg n ≠ limitNoneAddedMsg ∧
      limitSomeAddedMsg n ≠ alreadyFullMsg := by
  decide

theorem removeFile_enumFrom (l : List Candidate) : ∀ (n : Nat) (i : Int),
    (((List.enumFrom n l).filter fun p => !((p.1 : Int) == i)).map Prod.snd) =
      if (n : Int) ≤ i ∧ i < (n : Int) + l.length then
        l.eraseIdx (i - n).toNat
      else l := by
  induction l with
  | nil =>
    intro n i
    rw [if_neg]
    · rfl
    · simp only [List.length_nil, Nat.cast_zero, add_zero, not_and, not_lt]
      omega
  | cons a t ih =>
    intro n i
    rw [List.enumFrom_cons]
    by_cases hni : (n : Int) = i
    · rw [List.filter_cons_of_neg (by simp [hni])]
      rw [ih (n + 1) i]
      rw [if_neg (by push_cast [List.length_cons]; omega)]
      rw [if_pos (by push_cast [List.length_cons]; omega)]
      have h0 : (i - n).toNat = 0 := by omega
      rw [h0]
      rfl
    · rw [List.filter_cons_of_pos (by simp [hni])]
      rw [List.map_cons, ih (n + 1) i]
      by_cases hin : ((n + 1 : Nat) : Int) ≤ i ∧ i < ((n + 1 : Nat) : Int) + t.length
      · rw [if_pos hin]
        rw [if_pos (by push_cast [List.length_cons]; push_cast at hin; omega)]
        have hk : (i - n).toNat = (i - ((n + 1 : Nat) : Int)).toNat + 1 := by
          push_cast at hin ⊢
          omega
        rw [hk]
        rfl
      · rw [if_neg hin]
        rw [if_neg (by push_cast [List.length_cons]; push_cast at hin; omega)]

theorem seekClose_sound : ∀ (rest acc w : List Char),
    seekClose acc rest = some w →
    ∃ mid post, rest = mid ++ '"' :: post ∧ w = acc.reverse ++ mid := by
  intro rest
  induction rest with
  | nil =>
    intro acc w h
    simp [seekClose] at h
  | cons c cs ih =>
    intro acc w h
    unfold seekClose at h
    split at h
    next hc =>
      refine ⟨[], cs, ?_, ?_⟩
      · have : c = '"' := by simpa using hc
        rw [this]
        rfl
      · injection h with h
        rw [← h]
        simp
    · split at h
      next hdot =>
        obtain ⟨mid, post, h1, h2⟩ := ih (c :: acc) w h
        refine ⟨c :: mid, post, by simp [h1], ?_⟩
        rw [h2]
        simp
      · exact absurd h (by simp)

theorem captureAfter_sound (cs v : List Char)
    (h : captureAfter cs = some v) :
    ∃ post, cs = v ++ '"' :: post ∧ v ≠ [] := by
  cases cs with
  | nil => simp [captureAfter] at h
  | cons c rest =>
    simp only [captureAfter] at h
    split at h
    · obtain ⟨mid, post, h1, h2⟩ := seekClose_sound rest [c] v h
      refine ⟨post, ?_, ?_⟩
      · rw [h1, h2]
        rfl
      · rw [h2]
        simp
    · exact absurd h (by simp)

theorem matchFilename_sound : ∀ (s v : List Char),
    matchFilename s = some v →
    ∃ pre post, s = pre ++ filenamePat ++ v ++ '"' :: post ∧ v ≠ [] := by
  intro s
  induction s with
  | nil =>
    intro v h
    simp [matchFilename] at h
  | cons c rest ih =>
    intro v h
    unfold matchFilename at h
    split at h
    next hpre =>
      obtain ⟨suf, hsuf⟩ := (List.isPrefixOf_iff_prefix.mp hpre)
      split at h
      next v' hcap =>
        injection h with h
        subst h
        have hdrop : (c :: rest).drop filenamePat.length = suf := by
          rw [← hsuf]
          exact List.drop_left _ _
        rw [hdrop] at hcap
        obtain ⟨post, h1, h2⟩ := captureAfter_sound suf v' hcap
        refine ⟨[], post, ?_, h2⟩
        rw [← hsuf, h1]
        simp
      next hcap =>
        obtain ⟨pre, post, h1, h2⟩ := ih v h
        exact ⟨c :: pre, post, by simp [h1], h2⟩
    · obtain ⟨pre, post, h1, h2⟩ := ih v h
      exact ⟨c :: pre, post, by simp [h1], h2⟩

/-! ## Claim theorems -/

/-- C3: submitting with an empty Batch transitions directly to `error`
with the empty-submission message and no network request is issued (the
run records no sent request, no save, and leaves the rest of the state —
files, loading flag — untouched), whatever the environment would have
answered. -/
theorem c3_empty_submission (st : AppState) (o : FetchOutcome)
    (h : st.files = []) :
    handleSubmit st o =
      { finalState := { st with status := ⟨emptySubmitMsg, .error⟩ },
        requestSent := none, savedAs := none } := by
  unfold handleSubmit
  rw [h]
  rfl

/-- Witness for C3 at the initial state and a transport failure. -/
theorem c3_empty_submission_witness :
    handleSubmit initState (.transportError "Failed to fetch") =
      { finalState := { initState with status := ⟨emptySubmitMsg, .error⟩ },
        requestSent := none, savedAs := none } :=
  c3_empty_submission initState (.transportError "Failed to fetch") rfl

/-- C6: on every failed transfer (transport failure with any error
message, or any non-2xx response), the Batch contents are preserved
unchanged, the Status type becomes `error`, no save is triggered, and the
loading flag is reset, so the system is usable again. -/
theorem c6_failure_preserves_batch (st : AppState) (o : FetchOutcome)
    (h1 : st.files ≠ []) (h2 : isFailureOutcome o = true) :
    (handleSubmit st o).finalState.files = st.files ∧
    (handleSubmit st o).finalState.status.type = .error ∧
    (handleSubmit st o).finalState.isLoading = false ∧
    (handleSubmit st o).savedAs = none := by
  have hlen : ¬st.files.length = 0 := by
    simpa [List.length_eq_zero] using h1
  cases o with
  | transportError msg =>
    unfold handleSubmit
    rw [if_neg hlen]
    exact ⟨catchBranch_files _ _, catchBranch_type _ _, rfl, rfl⟩
  | response ok body cd =>
    have hok : ok = false := by
      simpa [isFailureOutcome] using h2
    subst hok
    unfold handleSubmit
    rw [if_neg hlen]
    exact ⟨catchBranch_files _ _, catchBranch_type _ _, rfl, rfl⟩

/-- Witness for C6: one-file batch, server answers 500. -/
theorem c6_failure_preserves_batch_witness :
    (handleSubmit ⟨[fileA], false, statusIdle, false⟩
        (.response false "boom" none)).finalState.files = [fileA] ∧
    (handleSubmit ⟨[fileA], false, statusIdle, false⟩
        (.response false "boom" none)).finalState.status.type = .error ∧
    (handleSubmit ⟨[fileA], false, statusIdle, false⟩
        (.response false "boom" none)).finalState.isLoading = false ∧
    (handleSubmit ⟨[fileA], false, statusIdle, false⟩
        (.response false "boom" none)).savedAs = none :=
  c6_failure_preserves_batch ⟨[fileA], false, statusIdle, false⟩
    (.response false "boom" none) (by decide) rfl

/-- C7: two submissions that receive a non-2xx response and differ only
in the diagnostic body text (and header) produce identical runs, and the
user-facing message is the fixed generic server-error message — the raw
diagnostic text never reaches the Status. -/
theorem c7_server_error_noninterference (st : AppState)
    (b1 b2 : String) (cd1 cd2 : Option String) (h : st.files ≠ []) :
    handleSubmit st (.response false b1 cd1) =
      handleSubmit st (.response false b2 cd2) ∧
    (handleSubmit st (.response false b1 cd1)).finalState.status =
      ⟨serverErrMsg, .error⟩ := by
  have hlen : ¬st.files.length = 0 := by
    simpa [List.length_eq_zero] using h
  have hcatch : ∀ st' : AppState, catchBranch st' "server_error" =
      { st' with status := ⟨serverErrMsg, .error⟩ } := by
    intro st'
    unfold catchBranch
    rw [if_neg (by decide), if_pos (by decide)]
  constructor
  · unfold handleSubmit
    rw [if_neg hlen, if_neg hlen]
    rfl
  · unfold handleSubmit
    rw [if_neg hlen]
    show (catchBranch { st with isLoading := true, status := statusIdle }
        "server_error").status = ⟨serverErrMsg, .error⟩
    rw [hcatch]

/-- Witness for C7 with the two diagnostic bodies of the spec scenarios. -/
theorem c7_server_error_noninterference_witness :
    handleSubmit ⟨[fileA], false, statusIdle, false⟩
        (.response false "conversion failed: corrupt zip" none) =
      handleSubmit ⟨[fileA], false, statusIdle, false⟩
        (.response false "stack trace: EACCES at /srv/app.js:17" none) ∧
    (handleSubmit ⟨[fileA], false, statusIdle, false⟩
        (.response false "conversion failed: corrupt zip" none)).finalState.status =
      ⟨serverErrMsg, .error⟩ :=
  c7_server_error_noninterference ⟨[fileA], false, statusIdle, false⟩
    "conversion failed: corrupt zip" "stack trace: EACCES at /srv/app.js:17"
    none none (by decide)

/-- C2 (code behaviour at the spec's scenario A): with a one-file batch
and a 2xx response carrying `filename="out.zip"`, the save is triggered
with `out.zip`, the request carried the batch, and the Batch becomes
empty — but the final Status is `idle` with an empty message, not
`success`: `clearAll()` runs right after the success status is set and
wipes it. -/
theorem c2_success_run_clears_status :
    scenarioA.savedAs = some "out.zip" ∧
    scenarioA.requestSent = some demoBatch ∧
    scenarioA.finalState.files = [] ∧
    scenarioA.finalState.isLoading = false ∧
    scenarioA.finalState.status = statusIdle ∧
    scenarioA.finalState.status.type ≠ .success := by
  refine ⟨by decide, rfl, rfl, rfl, rfl, by decide⟩

/-- C1 counterexample: offering the same `(name, size)` file twice within
one `addFiles` call admits it twice — the duplicate gate only checks the
batch as it was at call time, not files staged earlier in the same offer —
so the claimed invariant fails on a one-call sequence from the empty
state. -/
theorem c1_intra_offer_duplicate :
    (runAdds [[fileA, fileA]]).files = [fileA, fileA] ∧
    ¬(runAdds [[fileA, fileA]]).files.Pairwise KeyDifferent := by
  constructor
  · rfl
  · decide

/-- C1 (amended): for every sequence of `addFiles` calls starting from
the empty state in which each single offer is free of internal `(name,
size)` duplicates, the batch never exceeds 30 files and never contains
two candidates with the same `(name, size)` pair. -/
theorem c1_batch_invariant (offers : List (List Candidate))
    (h : ∀ fs ∈ offers, fs.Pairwise KeyDifferent) :
    (runAdds offers).files.length ≤ MAX_FILES ∧
    (runAdds offers).files.Pairwise KeyDifferent :=
  runAdds_inv_aux offers initState h (by decide) List.Pairwise.nil

/-- Witness for C1 at a concrete two-offer sequence. -/
theorem c1_batch_invariant_witness :
    (runAdds [[fileA], [fileB]]).files.length ≤ MAX_FILES ∧
    (runAdds [[fileA], [fileB]]).files.Pairwise KeyDifferent :=
  c1_batch_invariant [[fileA], [fileB]] (by decide)

/-- C4: offering `N` extension-eligible, non-duplicate files to a batch
with remaining room `R = 30 - length` where `0 < R < N` appends exactly
the first `R` offered files (final length 30) and sets the partial
"limit reached, R added" error message, which differs both from the
zero-additions in-loop message and from the already-at-capacity
message. -/
theorem c4_overflow_admission (st : AppState) (fs : List Candidate)
    (hroom : st.files.length < MAX_FILES)
    (helig : ∀ f ∈ fs, isDocx f = true ∧ isDuplicate st.files f = false)
    (hN : MAX_FILES - st.files.length < fs.length) :
    (addFiles st fs).files =
      st.files ++ fs.take (MAX_FILES - st.files.length) ∧
    (addFiles st fs).files.length = MAX_FILES ∧
    (addFiles st fs).status =
      ⟨limitSomeAddedMsg (MAX_FILES - st.files.length), .error⟩ ∧
    limitSomeAddedMsg (MAX_FILES - st.files.length) ≠ limitNoneAddedMsg ∧
    limitSomeAddedMsg (MAX_FILES - st.files.length) ≠ alreadyFullMsg := by
  have hloop := addFilesLoop_all_eligible st.files fs [] false helig
    (by simpa using hroom.le)
  rw [List.nil_append, List.length_nil, Nat.sub_zero] at hloop
  have hlen1 : (fs.take (MAX_FILES - st.files.length)).length =
      MAX_FILES - st.files.length := by
    rw [List.length_take]
    omega
  have hne := limitSomeAddedMsg_ne (MAX_FILES - st.files.length)
    (by unfold MAX_FILES; omega) (by omega)
  refine ⟨?_, ?_, ?_, hne.1, hne.2⟩
  · rw [addFiles_files_eq, if_neg (by omega), hloop]
  · rw [addFiles_files_eq, if_neg (by omega), hloop, List.length_append, hlen1]
    omega
  · rw [addFiles_status_eq, if_neg (by omega), hloop]
    have hflag : (false || decide (MAX_FILES - st.files.length < fs.length))
        = true := by
      simp [hN]
    rw [hflag]
    rw [if_pos (by rw [hlen1]; simp; omega)]
    rw [hlen1]

/-- Witness for C4: a batch of 29 files offered 2 more — exactly one is
added and the partial message names 1 file. -/
theorem c4_overflow_admission_witness :
    (addFiles state29 offer2).files = state29.files ++ offer2.take 1 ∧
    (addFiles state29 offer2).files.length = MAX_FILES ∧
    (addFiles state29 offer2).status = ⟨limitSomeAddedMsg 1, .error⟩ ∧
    limitSomeAddedMsg 1 ≠ limitNoneAddedMsg ∧
    limitSomeAddedMsg 1 ≠ alreadyFullMsg :=
  c4_overflow_admission state29 offer2 (by decide) (by decide) (by decide)

/-- C5: `removeFile` on an index outside `[0, length)` (negative or too
large) returns the list unchanged — the total filter-based definition
cannot raise — and on an in-range index it removes exactly the element at
that position (`eraseIdx`). -/
theorem c5_removeFile_spec (l : List Candidate) (i : Int) :
    (i < 0 ∨ (l.length : Int) ≤ i → removeFile l i = l) ∧
    (0 ≤ i → i < (l.length : Int) → removeFile l i = l.eraseIdx i.toNat) := by
  have e : removeFile l i =
      if ((0 : Nat) : Int) ≤ i ∧ i < ((0 : Nat) : Int) + l.length then
        l.eraseIdx (i - ((0 : Nat) : Int)).toNat
      else l :=
    removeFile_enumFrom l 0 i
  constructor
  · intro hout
    rw [e, if_neg (by push_cast; omega)]
  · intro h0 hlen
    rw [e, if_pos (by push_cast; omega)]
    have h1 : (i - ((0 : Nat) : Int)).toNat = i.toNat := by omega
    rw [h1]

/-- Witness for C5: a negative index and a too-large index are no-ops on
a two-element list, and index 0 removes the first element. -/
theorem c5_removeFile_witness :
    removeFile [fileA, fileB] (-1) = [fileA, fileB] ∧
    removeFile [fileA, fileB] 2 = [fileA, fileB] ∧
    removeFile [fileA, fileB] 0 = [fileB] :=
  ⟨(c5_removeFile_spec [fileA, fileB] (-1)).1 (Or.inl (by decide)),
   (c5_removeFile_spec [fileA, fileB] 2).1 (Or.inr (by decide)),
   (c5_removeFile_spec [fileA, fileB] 0).2 (by decide) (by decide)⟩

/-- C8: on a successful response the saved filename is the group captured
by the pattern `filename="<value>"` on the `Content-Disposition` header
(when the match succeeds, the header really does contain
`filename="` followed by the nonempty captured value and a closing
quote); when the header is absent or the pattern does not match, the
filename falls back to `converted-files.zip`. -/
theorem c8_filename_extraction (cd : Option String) :
    (cd = none → resolveFilename cd = defaultZipName) ∧
    (∀ s : String, cd = some s → matchFilename s.data = none →
      resolveFilename cd = defaultZipName) ∧
    (∀ (s : String) (v : List Char), cd = some s →
      matchFilename s.data = some v →
      resolveFilename cd = String.mk v ∧
      ∃ pre post, s.data = pre ++ filenamePat ++ v ++ '"' :: post ∧
        v ≠ []) := by
  refine ⟨?_, ?_, ?_⟩
  · intro h
    rw [h]
    rfl
  · intro s hs hm
    rw [hs]
    simp only [resolveFilename]
    by_cases he : s.data.isEmpty
    · rw [if_pos he]
    · rw [if_neg he, hm]
  · intro s v hs hm
    refine ⟨?_, matchFilename_sound s.data v hm⟩
    rw [hs]
    simp only [resolveFilename]
    have hne : ¬s.data.isEmpty = true := by
      intro he
      rw [List.isEmpty_iff] at he
      rw [he] at hm
      simp [matchFilename] at hm
    rw [if_neg hne, hm]

/-- Witness for C8: the scenario-A header yields `out.zip`, and the
absent header yields the default name. -/
theorem c8_filename_extraction_witness :
    resolveFilename (some demoHeader) = "out.zip" ∧
    resolveFilename none = defaultZipName :=
  ⟨((c8_filename_extraction (some demoHeader)).2.2 demoHeader
      "out.zip".data rfl (by decide)).1,
   (c8_filename_extraction none).1 rfl⟩

theorem clearAll_isLoading (st : AppState) :
    (clearAll st).isLoading = st.isLoading := rfl

theorem reachable_loading_iff_pending {st : UIState} (h : Reachable st) :
    st.pendingRequest.isSome = st.app.isLoading := by
  induction h with
  | init => rfl
  | @step st' e hr he ih =>
    cases e with
    | pickFiles fs =>
      show st'.pendingRequest.isSome = (addFiles st'.app fs).isLoading
      rw [addFiles_isLoading]
      exact ih
    | dropFiles fs =>
      show st'.pendingRequest.isSome =
        (addFiles { st'.app with isDragging := false } fs).isLoading
      rw [addFiles_isLoading]
      exact ih
    | removeClick i => exact ih
    | clearClick => exact ih
    | submitStart =>
      have hne : ¬st'.app.files.length = 0 := by
        have := (Bool.and_eq_true _ _).mp he
        have hpos := of_decide_eq_true this.2
        omega
      show (step st' .submitStart).pendingRequest.isSome =
        (step st' .submitStart).app.isLoading
      unfold step
      rw [if_neg hne]
      rfl
    | transferResolve o =>
      have hsome : st'.pendingRequest.isSome = true := he
      obtain ⟨req, hreq⟩ := Option.isSome_iff_exists.mp hsome
      show (step st' (.transferResolve o)).pendingRequest.isSome =
        (step st' (.transferResolve o)).app.isLoading
      unfold step
      rw [hreq]
      rfl

/-- C9 counterexample: from a reachable state with a transfer in flight
(`isLoading = true`), the drag-and-drop path is still enabled — the drop
zone has no `disabled` gate — and a drop mutates the Batch during
loading, refuting "no intake mutation can occur through any input
path". -/
theorem c9_drop_during_loading :
    Reachable uiLoading ∧
    uiLoading.app.isLoading = true ∧
    enabled uiLoading (.dropFiles [fileB]) = true ∧
    (step uiLoading (.dropFiles [fileB])).app.files ≠ uiLoading.app.files :=
  ⟨Reachable.step (Reachable.step Reachable.init (by decide)) (by decide),
   rfl, rfl, by decide⟩

/-- C9 (amended): a transfer is pending exactly while `isLoading` holds,
and while loading the file picker, per-item removal, clear-all and the
submit button are all disabled — so no second transfer can start and at
most one is pending — but the drag-and-drop intake path remains
enabled. -/
theorem c9_loading_gating (st : UIState) (h : Reachable st) :
    st.pendingRequest.isSome = st.app.isLoading ∧
    (st.app.isLoading = true →
      (∀ fs, enabled st (.pickFiles fs) = false) ∧
      (∀ i, enabled st (.removeClick i) = false) ∧
      enabled st .clearClick = false ∧
      enabled st .submitStart = false ∧
      (∀ fs, enabled st (.dropFiles fs) = true)) := by
  refine ⟨reachable_loading_iff_pending h, fun hl => ?_⟩
  refine ⟨fun fs => ?_, fun i => ?_, ?_, ?_, fun fs => ?_⟩ <;>
    simp [enabled, hl]

/-- Witness for C9 at the concrete reachable loading state. -/
theorem c9_loading_gating_witness :
    uiLoading.pendingRequest.isSome = uiLoading.app.isLoading ∧
    (uiLoading.app.isLoading = true →
      (∀ fs, enabled uiLoading (.pickFiles fs) = false) ∧
      (∀ i, enabled uiLoading (.removeClick i) = false) ∧
      enabled uiLoading .clearClick = false ∧
      enabled uiLoading .submitStart = false ∧
      (∀ fs, enabled uiLoading (.dropFiles fs) = true)) :=
  c9_loading_gating uiLoading
    (Reachable.step (Reachable.step Reachable.init (by decide)) (by decide))

/-- C10: the result of `addFiles` is independent of the prior Status (the
handler resets it to idle before any gate), and the only Status an
admission attempt can leave behind is idle or one of the three
capacity-related error messages. -/
theorem c10_addFiles_status_frame (st : AppState) (fs : List Candidate) :
    (∀ s0 : Status, addFiles { st with status := s0 } fs = addFiles st fs) ∧
    ((addFiles st fs).status = statusIdle ∨
      (addFiles st fs).status = ⟨alreadyFullMsg, .error⟩ ∨
      (addFiles st fs).status = ⟨limitNoneAddedMsg, .error⟩ ∨
      ∃ n, (addFiles st fs).status = ⟨limitSomeAddedMsg n, .error⟩) := by
  constructor
  · intro s0
    rfl
  · rw [addFiles_status_eq]
    split
    · exact Or.inr (Or.inl rfl)
    split
    · exact Or.inr (Or.inr (Or.inr ⟨_, rfl⟩))
    split
    · exact Or.inr (Or.inr (Or.inl rfl))
    · exact Or.inl rfl

end Wordopdf
